import Mathlib

/-!
Verification of the DNS message codec in `src/dns_client.c` (repository
`limion/net-playground`).

The codec functions of the C source are embedded as Lean functions over
`List Nat` byte buffers (each element a byte value `< 256` wherever it came
off the wire).  C strings become `List Nat` with no interior `0`; `strlen`
becomes `cstrlen` (length of the prefix before the first `0`); signed
`char` arithmetic is made explicit through `sbyte`.  Out-of-bounds reads
are undefined behaviour in the C program; the embedding gives them the
defaulted value `0` (no theorem below depends on that value except where
a theorem is precisely about the code reaching such a read, in which case
the decode loop is made to return `none`).
-/

namespace DnsClient

/-- The C `strlen` on a byte buffer: the length of the prefix before the first
zero byte. -/
def cstrlen (s : List Nat) : Nat := (s.takeWhile (fun b => b ≠ 0)).length

/-- Reading one byte at a (possibly pointer-arithmetic, hence `Int`)
position.  A negative or past-the-end position is an out-of-bounds read in
the C program (undefined behaviour); the embedding defaults it to `0`. -/
def byteAt (s : List Nat) (pos : Int) : Nat :=
  if pos < 0 then 0 else s.getD pos.toNat 0

/-- The value of a byte re-read through C's (signed, on the target ABI)
`char`: values `128..255` become negative. -/
def sbyte (b : Nat) : Int := if b < 128 then (b : Int) else (b : Int) - 256

/-- Big-endian 16-bit read at byte offset `i` (what `ntohs` of the 2 bytes
at `i` yields on the wire buffer). -/
def be16get (s : List Nat) (i : Nat) : Nat := 256 * s.getD i 0 + s.getD (i + 1) 0

/-- Big-endian 32-bit read at byte offset `i` (what `ntohl` of the 4 bytes
at `i` yields). -/
def be32get (s : List Nat) (i : Nat) : Nat :=
  16777216 * s.getD i 0 + 65536 * s.getD (i + 1) 0 + 256 * s.getD (i + 2) 0 + s.getD (i + 3) 0

/-- Big-endian wire bytes of a 16-bit value (`htons` followed by storing
the 2 bytes). -/
def be16 (n : Nat) : List Nat := [n / 256 % 256, n % 256]

/-! ## Name encoding: `get_qname_len` and `hostname_to_qname`
(`src/dns_client.c` lines 144-173). -/

/-- Source `get_qname_len`: `strlen(host) + 2`. -/
def get_qname_len (host : List Nat) : Nat := cstrlen host + 2

/-- The `strtok(host, ".")` token stream: the maximal nonempty runs of
non-`'.'` bytes (`'.'` = 46).  `strtok` never yields an empty token, so
consecutive, leading and trailing dots simply disappear. -/
def tokens (host : List Nat) : List (List Nat) :=
  (host.splitOn 46).filter (fun t => t ≠ [])

/-- The label-sequence bytes the `hostname_to_qname` loop writes (without
the final terminator byte, which the `calloc`ed buffer already holds):
for each token a length byte `strlen(token)` — truncated to `char`, hence
`% 256` — followed by the token bytes. -/
def encodeTokens (toks : List (List Nat)) : List Nat :=
  toks.foldr (fun t acc => (t.length % 256) :: (t ++ acc)) []

/-- Source `hostname_to_qname`: builds the label sequence from the `strtok`
tokens, then returns `NULL` iff `strlen(qname) + 1 < qname_len` where
`qname_len = strlen(host) + 2`.  (The one-byte-short `host_copy` VLA is a
memory-level bug with no value-level effect and is not modelled.) -/
def hostname_to_qname (host : List Nat) : Option (List Nat) :=
  if cstrlen (encodeTokens (tokens host)) + 1 < cstrlen host + 2 then none
  else some (encodeTokens (tokens host))

/-! ## Name decoding: the label loop of `extract_question`
(`src/dns_client.c` lines 228-248). -/

/-- One-per-iteration embedding of the `extract_question` label loop:

```
while (section_pos < start_pos + qname_len) {
  if (qname_pos > question->qname) *qname_pos++ = '.';
  memcpy(qname_pos, section_pos + 1, *section_pos);
  qname_pos += *section_pos;
  section_pos += *section_pos + 1;
}
```

`*section_pos` goes through signed `char` (`sbyte`).  When it is negative
the `memcpy` size wraps to a huge `size_t` — an out-of-bounds read,
undefined behaviour — modelled as `none`.  `fuel` only bounds the
embedding's recursion: with a nonnegative length byte each iteration
advances `section_pos` by at least 1, so `qlen + 1` fuel is never
exhausted on a path the C loop exits. -/
def extractLoop (s : List Nat) (qlen : Int) : Nat → Int → List Nat → Option (List Nat)
  | 0, _, _ => none
  | fuel + 1, pos, acc =>
      if pos < qlen then
        if sbyte (byteAt s pos) < 0 then none
        else
          extractLoop s qlen fuel (pos + sbyte (byteAt s pos) + 1)
            ((if acc.isEmpty then acc else acc ++ [46]) ++
              ((s.drop (pos + 1).toNat).take (sbyte (byteAt s pos)).toNat))
      else some acc

/-- The dotted-name extraction of `extract_question`: `qname_len` is
`strlen(start_pos)` and the loop starts at `start_pos` with an empty
output. -/
def extract_question_name (s : List Nat) : Option (List Nat) :=
  extractLoop s (cstrlen s) (cstrlen s + 1) 0 []

/-- After the label loop, `extract_question` reads `qtype`/`qclass` as
big-endian shorts at `section_pos + 1`; on a terminated label sequence
`section_pos` stands at offset `strlen(start_pos)`. -/
def extract_question_tail (s : List Nat) : Nat × Nat :=
  (be16get s (cstrlen s + 1), be16get s (cstrlen s + 3))

/-! ## Header codec: `struct dns_header_flags`, `hydrate_dns_header`,
`flip_dns_header`, `extract_header` (`src/dns_client.c` lines 105-124,
175-202, 218-226). -/

/-- The named flag sub-fields of `struct dns_header_flags`. -/
structure DnsHeaderFlags where
  qr : Nat
  opcode : Nat
  aa : Nat
  tc : Nat
  rd : Nat
  ra : Nat
  z : Nat
  rcode : Nat
  deriving Repr, DecidableEq

/-- Source `struct dns_header` (host byte order; `flags` is the packed 16-bit
word). -/
structure DnsHeader where
  message_id : Nat
  flags : Nat
  qd_count : Nat
  an_count : Nat
  ns_count : Nat
  as_count : Nat
  deriving Repr, DecidableEq

/-- The value of the 16-bit `flags` word produced by writing the bit-field
members of `struct dns_header_flags` (declared lowest-field-first, so on
the target little-endian ABI `rcode` sits in bits 0-3 and `qr` in bit
15). -/
def pack_flags (f : DnsHeaderFlags) : Nat :=
  f.rcode + 16 * f.z + 128 * f.ra + 256 * f.rd + 512 * f.tc +
    1024 * f.aa + 2048 * f.opcode + 32768 * f.qr

/-- Reading the bit-field members back out of a 16-bit `flags` word
(the `(struct dns_header_flags *)&header->flags` overlay used when the
response header is printed). -/
def unpack_flags (w : Nat) : DnsHeaderFlags where
  qr := w / 32768 % 2
  opcode := w / 2048 % 16
  aa := w / 1024 % 2
  tc := w / 512 % 2
  rd := w / 256 % 2
  ra := w / 128 % 2
  z := w / 16 % 8
  rcode := w % 16

/-- Source `hydrate_dns_header`: fills the header with the fixed query values —
`message_id = 1`, flags with only `rd = 1` set, `qd_count = 1`, all other
counts `0`.  It takes no caller input. -/
def hydrate_dns_header : DnsHeader where
  message_id := 1
  flags := pack_flags { qr := 0, opcode := 0, aa := 0, tc := 0, rd := 1, ra := 0, z := 0, rcode := 0 }
  qd_count := 1
  an_count := 0
  ns_count := 0
  as_count := 0

/-- Source `flip_dns_header` applies `htons` to each 16-bit field and the struct
is then laid down byte-for-byte at the start of the message; the net wire
effect is each field stored big-endian in declaration order.  This is the
serialisation half of the header codec. -/
def flip_dns_header (h : DnsHeader) : List Nat :=
  be16 h.message_id ++ be16 h.flags ++ be16 h.qd_count ++ be16 h.an_count ++
    be16 h.ns_count ++ be16 h.as_count

/-- Source `extract_header` applies `ntohs` to each field of the overlaid struct:
reading the six 16-bit fields big-endian from the first 12 wire bytes. -/
def extract_header (s : List Nat) : DnsHeader where
  message_id := be16get s 0
  flags := be16get s 2
  qd_count := be16get s 4
  an_count := be16get s 6
  ns_count := be16get s 8
  as_count := be16get s 10

/-! ## Message assembly: `hydrate_message`
(`src/dns_client.c` lines 204-216). -/

/-- Source `hydrate_message`: hydrated and flipped header, then
`strcpy(question_start, qname)` — the bytes of `qname` up to its
terminator, plus the terminator itself — then `QTYPE = htons(1)` and
`QCLASS = htons(1)`.  `main` sizes the buffer as
`sizeof(struct dns_header) + strlen(qname) + 1 + 2 * FIELD_SIZE`, which
is exactly what is written. -/
def hydrate_message (qname : List Nat) : List Nat :=
  flip_dns_header hydrate_dns_header ++
    (qname.takeWhile (fun b => b ≠ 0) ++ [0]) ++ be16 1 ++ be16 1

/-! ## Resource records: `extract_resource_record` and the answer loop of
`main` (`src/dns_client.c` lines 250-261 and 349-362). -/

/-- Source `struct dns_resource_record`.  The record holds a 14-bit `offset`
taken from the name-pointer bytes — never a decoded name — and `ip_addr`
holds the 4 rdata bytes (the source stores `inet_ntoa`'s dotted text;
the embedding keeps the 4 bytes it renders). -/
structure DnsResourceRecord where
  offset : Nat
  rtype : Nat
  rclass : Nat
  ttl : Nat
  rd_length : Nat
  ip_addr : List Nat
  deriving Repr, DecidableEq

/-- Source `extract_resource_record` at `source`: the first 2 bytes are read as
`ntohs(...) & 0x3FFF` (mask to 14 bits, i.e. `% 16384`) into `offset`;
then type, class (16-bit), ttl (32-bit), rd_length (16-bit) big-endian;
then the next 4 bytes unconditionally as the address (`rd_length` is
never consulted and the pointer target is never visited). -/
def extract_resource_record (s : List Nat) : DnsResourceRecord where
  offset := be16get s 0 % 16384
  rtype := be16get s 2
  rclass := be16get s 4
  ttl := be32get s 6
  rd_length := be16get s 10
  ip_addr := (s.drop 12).take 4

/-- The answer-loop source offset in `main`:
`response + sizeof(struct dns_header) + get_qname_len(question.qname)
 + 2 * FIELD_SIZE + i * 16` — a fixed 16-byte stride per record, computed
from the decoded (dotted) question name, never from a `bytes_consumed`
reported by a sub-decoder. -/
def record_source_offset (decoded_qname : List Nat) (i : Nat) : Nat :=
  12 + get_qname_len decoded_qname + 2 * 2 + i * 16

/-! ## Validity of names (the spec's domain for the round-trip claims). -/

/-- A valid label: 1-63 bytes, none of which is `'.'` (46) or `0`. -/
def validLabel (l : List Nat) : Prop :=
  1 ≤ l.length ∧ l.length ≤ 63 ∧ ∀ b ∈ l, b ≠ 46 ∧ b ≠ 0

instance (l : List Nat) : Decidable (validLabel l) := by
  unfold validLabel; infer_instance

/-- A valid name, given as its label list: at least one label, every label
valid, and the total encoded size (label sequence plus terminator) at most
255 bytes. -/
def validName (labels : List (List Nat)) : Prop :=
  labels ≠ [] ∧ (∀ l ∈ labels, validLabel l) ∧ (encodeTokens labels).length + 1 ≤ 255

instance (labels : List (List Nat)) : Decidable (validName labels) := by
  unfold validName; infer_instance

/-- The accumulator trajectory of the `extract_question` copy loop over a
label list: append each label, preceded by a dot whenever output already
exists. -/
def dotScan (acc : List Nat) (labels : List (List Nat)) : List Nat :=
  labels.foldl (fun a l => (if a.isEmpty then a else a ++ [46]) ++ l) acc

/-! ## Supporting lemmas. -/

lemma intercalate_cons_cons (a b : List Nat) (t : List (List Nat)) :
    List.intercalate [46] (a :: b :: t) = a ++ [46] ++ List.intercalate [46] (b :: t) := by
  simp [List.intercalate, List.intersperse_cons_cons]

lemma intercalate_single (a : List Nat) : List.intercalate [46] [a] = a := by
  simp [List.intercalate]

lemma cstrlen_of_ne_zero {s : List Nat} (h : ∀ b ∈ s, b ≠ 0) : cstrlen s = s.length := by
  unfold cstrlen
  rw [List.takeWhile_eq_self_iff.mpr (by simpa using h)]

lemma encodeTokens_cons (l : List Nat) (ls : List (List Nat)) :
    encodeTokens (l :: ls) = (l.length % 256) :: (l ++ encodeTokens ls) := rfl

lemma encodeTokens_ne_zero {labels : List (List Nat)}
    (h : ∀ l ∈ labels, validLabel l) : ∀ b ∈ encodeTokens labels, b ≠ 0 := by
  induction labels with
  | nil => intro b hb; simp [encodeTokens] at hb
  | cons l ls ih =>
      intro b hb
      obtain ⟨h1, h63, hbytes⟩ := h l (by simp)
      rw [encodeTokens_cons] at hb
      rcases List.mem_cons.mp hb with hb | hb
      · subst hb
        have : l.length % 256 = l.length := Nat.mod_eq_of_lt (by omega)
        omega
      · rcases List.mem_append.mp hb with hb | hb
        · exact (hbytes b hb).2
        · exact ih (fun l' hl' => h l' (by simp [hl'])) b hb

lemma intercalate_ne_zero {labels : List (List Nat)}
    (h : ∀ l ∈ labels, validLabel l) : ∀ b ∈ List.intercalate [46] labels, b ≠ 0 := by
  induction labels with
  | nil => intro b hb; simp [List.intercalate] at hb
  | cons l ls ih =>
      intro b hb
      cases ls with
      | nil =>
          rw [intercalate_single] at hb
          exact ((h l (by simp)).2.2 b hb).2
      | cons l' ls' =>
          rw [intercalate_cons_cons] at hb
          rcases List.mem_append.mp hb with hb | hb
          · rcases List.mem_append.mp hb with hb | hb
            · exact ((h l (by simp)).2.2 b hb).2
            · simp at hb; omega
          · exact ih (fun x hx => h x (by simp [hx])) b hb

lemma encodeTokens_length (labels : List (List Nat)) (hne : labels ≠ []) :
    (encodeTokens labels).length = (List.intercalate [46] labels).length + 1 := by
  induction labels with
  | nil => exact absurd rfl hne
  | cons l ls ih =>
      cases ls with
      | nil => simp [encodeTokens_cons, encodeTokens, intercalate_single]
      | cons l' ls' =>
          rw [encodeTokens_cons, intercalate_cons_cons]
          simp only [List.length_cons, List.length_append, ih (by simp)]
          simp
          omega

lemma tokens_intercalate (labels : List (List Nat)) (hne : labels ≠ [])
    (h : ∀ l ∈ labels, validLabel l) :
    tokens (List.intercalate [46] labels) = labels := by
  unfold tokens
  have hx : ∀ l ∈ labels, 46 ∉ l := by
    intro l hl hmem
    exact ((h l hl).2.2 46 hmem).1 rfl
  rw [List.splitOn_intercalate labels 46 hx hne]
  rw [List.filter_eq_self.mpr ?_]
  intro l hl
  have h1 := (h l hl).1
  simp only [ne_eq, decide_eq_true_eq]
  intro hnil
  subst hnil
  simp at h1

lemma byteAt_append_cons (pre : List Nat) (x : Nat) (rest : List Nat) :
    byteAt (pre ++ x :: rest) (pre.length : Int) = x := by
  unfold byteAt
  rw [if_neg (by omega)]
  rw [Int.toNat_natCast]
  rw [List.getD_append_right _ _ _ _ (le_refl _)]
  simp

lemma drop_append_cons (pre : List Nat) (x : Nat) (rest : List Nat) :
    (pre ++ x :: rest).drop (pre.length + 1) = rest := by
  rw [← List.drop_drop 1 pre.length]
  rw [List.drop_left]
  rfl

lemma dotScan_cons (acc : List Nat) (l : List Nat) (ls : List (List Nat)) :
    dotScan acc (l :: ls) = dotScan ((if acc.isEmpty then acc else acc ++ [46]) ++ l) ls := rfl

/-- The `extract_question` label loop, run at position `pre.length` of a
buffer whose remaining bytes are exactly an encoded label sequence,
accumulates the labels joined by dots. -/
lemma extractLoop_spec (labels : List (List Nat)) :
    ∀ (pre acc : List Nat) (fuel : Nat),
      (∀ l ∈ labels, validLabel l) →
      (encodeTokens labels).length < fuel →
      extractLoop (pre ++ encodeTokens labels)
          ((pre.length : Int) + ((encodeTokens labels).length : Int)) fuel
          (pre.length : Int) acc
        = some (dotScan acc labels) := by
  induction labels with
  | nil =>
      intro pre acc fuel _ hfuel
      match fuel, hfuel with
      | f + 1, _ =>
          show extractLoop (pre ++ encodeTokens []) _ (f + 1) _ acc = _
          rw [extractLoop]

          simp [encodeTokens, dotScan]
  | cons l ls ih =>
      intro pre acc fuel hvalid hfuel
      obtain ⟨h1, h63, hbytes⟩ := hvalid l (by simp)
      have hlen : l.length % 256 = l.length := Nat.mod_eq_of_lt (by omega)
      have hElen : (encodeTokens (l :: ls)).length = 1 + l.length + (encodeTokens ls).length := by
        rw [encodeTokens_cons]; simp; omega
      match fuel, hfuel with
      | f + 1, hfuel =>
          rw [encodeTokens_cons, extractLoop]
          rw [if_pos (by simp only [List.length_cons]; push_cast; omega)]
          rw [byteAt_append_cons]
          rw [hlen]
          have hsb : sbyte l.length = (l.length : Int) := by
            unfold sbyte; rw [if_pos (by omega)]
          rw [hsb]
          rw [if_neg (by omega)]
          have hpos1 : ((pre.length : Int) + 1).toNat = pre.length + 1 := by omega
          rw [hpos1]
          rw [drop_append_cons]
          have htk : ((l.length : Int)).toNat = l.length := by omega
          rw [htk]
          rw [List.take_left]
          have hs : pre ++ l.length :: (l ++ encodeTokens ls)
              = (pre ++ l.length :: l) ++ encodeTokens ls := by
            simp
          rw [hs]
          have hpre' : ((pre.length : Int) + (l.length : Int) + 1)
              = (((pre ++ l.length :: l).length : Nat) : Int) := by
            push_cast [List.length_append, List.length_cons]; ring
          have hqlen : ((pre.length : Int) + (((l.length :: (l ++ encodeTokens ls)).length : Nat) : Int))
              = (((pre ++ l.length :: l).length : Nat) : Int)
                + ((encodeTokens ls).length : Int) := by
            push_cast [List.length_append, List.length_cons]; ring
          rw [hqlen, hpre']
          rw [ih (pre ++ l.length :: l) _ f
            (fun l' hl' => hvalid l' (by simp [hl']))
            (by rw [hElen] at hfuel; omega)]
          rw [dotScan_cons]

lemma dotScan_append (labels : List (List Nat)) :
    ∀ acc : List Nat, acc ≠ [] →
      dotScan acc labels = acc ++ List.intercalate [46] ([] :: labels) := by
  induction labels with
  | nil =>
      intro acc hacc
      simp [dotScan, intercalate_single]
  | cons l ls ih =>
      intro acc hacc
      rw [dotScan_cons]
      rw [if_neg (by simpa using hacc)]
      rw [ih ((acc ++ [46]) ++ l) (by simp)]
      rw [intercalate_cons_cons]
      cases ls with
      | nil => simp [intercalate_single]
      | cons l' ls' =>
          rw [intercalate_cons_cons, intercalate_cons_cons]
          simp [List.append_assoc]

lemma dotScan_nil_acc (labels : List (List Nat)) (hne : labels ≠ [])
    (h : ∀ l ∈ labels, validLabel l) :
    dotScan [] labels = List.intercalate [46] labels := by
  cases labels with
  | nil => exact absurd rfl hne
  | cons l ls =>
      rw [dotScan_cons]
      simp only [show (([] : List Nat).isEmpty = true) = True by simp, if_true, List.nil_append]
      have hl : l ≠ [] := by
        have h1 := (h l (by simp)).1
        intro hn; subst hn; simp at h1
      cases ls with
      | nil => simp [dotScan, intercalate_single]
      | cons l' ls' =>
          rw [dotScan_append (l' :: ls') l hl]
          rw [intercalate_cons_cons, intercalate_cons_cons]
          simp [List.append_assoc]

/-! ## The claims. -/

/-- C4.  Name round-trip identity: for every valid name — a dot-separated
sequence of labels, each 1-63 bytes, with total encoded size at most 255
bytes — `hostname_to_qname` (Encode) succeeds and produces the
length-prefixed label sequence, and the `extract_question` name decode
(Decode) of that wire form yields the original dotted name:
`Decode(Encode(name)) == name`. -/
theorem name_roundtrip (labels : List (List Nat)) (h : validName labels) :
    hostname_to_qname (List.intercalate [46] labels) = some (encodeTokens labels) ∧
    extract_question_name (encodeTokens labels) = some (List.intercalate [46] labels) := by
  obtain ⟨hne, hval, _⟩ := h
  have hz : ∀ b ∈ encodeTokens labels, b ≠ 0 := encodeTokens_ne_zero hval
  have hcz : cstrlen (encodeTokens labels) = (encodeTokens labels).length :=
    cstrlen_of_ne_zero hz
  have hhz : cstrlen (List.intercalate [46] labels) = (List.intercalate [46] labels).length :=
    cstrlen_of_ne_zero (intercalate_ne_zero hval)
  constructor
  · unfold hostname_to_qname
    rw [tokens_intercalate labels hne hval]
    rw [if_neg (by rw [hcz, hhz, encodeTokens_length labels hne]; omega)]
  · unfold extract_question_name
    rw [hcz]
    have hloop := extractLoop_spec labels [] []
      ((encodeTokens labels).length + 1) hval (by omega)
    simp only [List.nil_append, List.length_nil, Nat.cast_zero, zero_add] at hloop
    rw [hloop]
    rw [dotScan_nil_acc labels hne hval]

/-- Witness for C4 at the concrete name `"www.example.com"`
(labels `www`, `example`, `com`). -/
theorem name_roundtrip_witness :
    validName [[119, 119, 119], [101, 120, 97, 109, 112, 108, 101], [99, 111, 109]] ∧
    (hostname_to_qname
        (List.intercalate [46]
          [[119, 119, 119], [101, 120, 97, 109, 112, 108, 101], [99, 111, 109]])
      = some (encodeTokens
          [[119, 119, 119], [101, 120, 97, 109, 112, 108, 101], [99, 111, 109]]) ∧
     extract_question_name (encodeTokens
          [[119, 119, 119], [101, 120, 97, 109, 112, 108, 101], [99, 111, 109]])
      = some (List.intercalate [46]
          [[119, 119, 119], [101, 120, 97, 109, 112, 108, 101], [99, 111, 109]])) :=
  ⟨by decide, name_roundtrip _ (by decide)⟩

/-- C10.  Every query message the client builds carries transaction
identifier 1: `hydrate_dns_header` takes no caller input and sets
`message_id = 1`, so for every qname the first two (big-endian id) bytes
of the assembled message are `00 01`. -/
theorem message_id_constant_one :
    hydrate_dns_header.message_id = 1 ∧
    ∀ qname : List Nat, (hydrate_message qname).take 2 = [0, 1] := by
  exact ⟨rfl, fun _ => rfl⟩

/-- The spec's compression example: a response whose question name
`[3]www[7]example[3]com[0]` sits at offset 12 and whose answer name, at
offset 29, is the compression pointer `C0 0C` (offset 12), followed by a
type-1/class-1 record body. -/
def c1buf : List Nat :=
  List.replicate 12 0 ++
    [3, 119, 119, 119, 7, 101, 120, 97, 109, 112, 108, 101, 3, 99, 111, 109, 0] ++
    [192, 12, 0, 1, 0, 1, 0, 0, 0, 60, 0, 4, 93, 184, 216, 34]

/-- C1 (code_bug evaluation).  The claim says decoding a name that is a
bare compression pointer to offset 12 yields the same dotted name as
decoding at 12, with 2 bytes consumed.  On this buffer the code does not:
decoding directly at offset 12 yields `www.example.com`, but at the
pointer the question decoder re-reads the byte `0xC0` through signed
`char` (value -64) and feeds it to `memcpy` — undefined behaviour, not a
name — while the record decoder merely masks the two pointer bytes into
the 14-bit field `offset = 12` and never reads any label at the target. -/
theorem compression_pointer_not_followed :
    extract_question_name (c1buf.drop 12)
        = some [119, 119, 119, 46, 101, 120, 97, 109, 112, 108, 101, 46, 99, 111, 109] ∧
    extract_question_name (c1buf.drop 29) = none ∧
    (extract_resource_record (c1buf.drop 29)).offset = 12 ∧
    (extract_resource_record (c1buf.drop 29)).rtype = 1 := by
  refine ⟨by decide, by decide, by decide, by decide⟩

/-- A response with `an_count = 2`: question `ab` (offsets 12-19), a first
answer with an uncompressed name — 4 name bytes + 10 fixed bytes + 4
rdata bytes = 18 bytes, offsets 20-37 — and a second answer at offset 38
with a pointer name, type 1 and address `10.0.0.2`. -/
def c2buf : List Nat :=
  [0, 1, 129, 128, 0, 1, 0, 2, 0, 0, 0, 0] ++
    [2, 97, 98, 0, 0, 1, 0, 1] ++
    [2, 97, 98, 0, 0, 1, 0, 1, 0, 0, 0, 1, 0, 4, 10, 0, 0, 1] ++
    [192, 12, 0, 1, 0, 1, 0, 0, 0, 2, 0, 4, 10, 0, 0, 2]

/-- C2 (code_bug evaluation).  The claim says records are decoded at a
running offset advanced by each sub-decoder's `bytes_consumed`, never by
a fixed stride.  The code's answer loop uses the fixed stride
`12 + get_qname_len(question.qname) + 4 + i * 16`.  On `c2buf` the first
answer occupies 18 bytes (offsets 20-37), so the second answer starts at
38; the code instead reads record 1 at offset 36, landing inside record
0's rdata: it extracts type `0xC00C` (49164) and a wrong address, while
the record actually at 38 has type 1 and address `10.0.0.2`.  (The code
also decodes exactly one question regardless of `qd_count`.) -/
theorem fixed_stride_record_offsets :
    (extract_header c2buf).an_count = 2 ∧
    extract_question_name (c2buf.drop 12) = some [97, 98] ∧
    record_source_offset [97, 98] 0 = 20 ∧
    record_source_offset [97, 98] 1 = 36 ∧
    (extract_resource_record (c2buf.drop 36)).rtype = 49164 ∧
    (extract_resource_record (c2buf.drop 36)).ip_addr ≠ [10, 0, 0, 2] ∧
    (extract_resource_record (c2buf.drop 38)).rtype = 1 ∧
    (extract_resource_record (c2buf.drop 38)).ip_addr = [10, 0, 0, 2] := by
  refine ⟨by decide, by decide, by decide, by decide, by decide, by decide, by decide, by decide⟩

/-- C3 (code_bug evaluation).  The claim says name decoding tracks
pointer jumps, bounds-checks computed offsets, and fails with
`MalformedMessage` so that no input causes an out-of-bounds read.  The
code has no jump counter, no bounds check and no failure outcome: on a
name starting with the pointer bytes `C0 0C` the length byte re-read
through signed `char` is `-64`, which the loop hands to `memcpy` as a
size (wrapping to `2^64 - 64`) — an out-of-bounds read, modelled by the
embedding's `none`. -/
theorem pointer_byte_unguarded :
    sbyte 192 = -64 ∧ extract_question_name [192, 12, 0] = none := by
  refine ⟨by decide, by decide⟩

set_option maxRecDepth 4000 in
/-- C5 (code_bug evaluation).  The claim says encoding rejects any label
longer than 63 bytes and any total over 255 bytes.  The code checks
neither: a single 64-byte label is encoded (its length prefix `0x40` even
carries the reserved `01` top-bit pattern on the wire), and a two-label
name whose encoded size is 302 bytes is also encoded.  Only empty labels
are rejected (via the `strlen(qname) + 1 < qname_len` test). -/
theorem oversize_label_accepted :
    hostname_to_qname (List.replicate 64 97) = some (64 :: List.replicate 64 97) ∧
    hostname_to_qname (List.replicate 200 97 ++ 46 :: List.replicate 99 98)
      = some (200 :: (List.replicate 200 97 ++ 99 :: List.replicate 99 98)) ∧
    (200 :: (List.replicate 200 97 ++ 99 :: List.replicate 99 98)).length + 1 = 302 ∧
    hostname_to_qname [97, 46, 46, 98] = none := by
  refine ⟨by decide, by decide, by decide, by decide⟩

/-- C8 (code_bug evaluation).  The claim says a length byte with top bits
`01` or `10` makes decoding fail with `MalformedMessage`.  The code never
fails: the `01`-pattern byte `0x41` is treated as an ordinary label
length of 65 and decoding succeeds, and the `10`-pattern byte `0x81`
becomes a negative signed `char`, sending a wrapped size to `memcpy`
(undefined behaviour, the embedding's `none`) — in neither case is a
malformed-message error produced (`extract_question` returns `void` and
has no error channel at all). -/
theorem reserved_length_pattern_accepted :
    extract_question_name (65 :: (List.replicate 65 97 ++ [0]))
      = some (List.replicate 65 97) ∧
    extract_question_name [129, 97, 0] = none := by
  refine ⟨by decide, by decide⟩

/-- C9 (code_bug evaluation).  The claim says a type-1 (address) record
whose `rdlength` is not 4 fails with `MalformedMessage`.  The code never
compares `rd_length` with 4: on a type-1 record declaring `rdlength = 5`
it silently reads exactly 4 rdata bytes and reports success. -/
theorem rdlength_mismatch_ignored :
    extract_resource_record [192, 12, 0, 1, 0, 1, 0, 0, 0, 60, 0, 5, 1, 2, 3, 4, 5]
      = { offset := 12, rtype := 1, rclass := 1, ttl := 60,
          rd_length := 5, ip_addr := [1, 2, 3, 4] } := by
  decide

/-- C6.  Header round-trip: for every header field combination — id, the
four counts, and each flag sub-field in its bit-width range, hence every
flag bit independently togglable — decoding the encoded header gives the
header back, where the flags word has `qr` as its most significant bit
and `rcode` as its 4 least significant bits and every 16-bit field is
written big-endian. -/
theorem header_roundtrip (f : DnsHeaderFlags) (id qd an ns ar : Nat)
    (hqr : f.qr < 2) (hop : f.opcode < 16) (haa : f.aa < 2) (htc : f.tc < 2)
    (hrd : f.rd < 2) (hra : f.ra < 2) (hz : f.z < 8) (hrc : f.rcode < 16)
    (hid : id < 65536) (hqd : qd < 65536) (han : an < 65536)
    (hns : ns < 65536) (har : ar < 65536) :
    extract_header (flip_dns_header ⟨id, pack_flags f, qd, an, ns, ar⟩)
        = ⟨id, pack_flags f, qd, an, ns, ar⟩ ∧
    unpack_flags (pack_flags f) = f := by
  obtain ⟨qr, op, aa, tc, rd, ra, z, rc⟩ := f
  simp only [pack_flags] at *
  constructor
  · have hred : extract_header (flip_dns_header
        ⟨id, rc + 16 * z + 128 * ra + 256 * rd + 512 * tc + 1024 * aa
              + 2048 * op + 32768 * qr, qd, an, ns, ar⟩)
        = ⟨256 * (id / 256 % 256) + id % 256,
           256 * ((rc + 16 * z + 128 * ra + 256 * rd + 512 * tc + 1024 * aa
              + 2048 * op + 32768 * qr) / 256 % 256)
             + (rc + 16 * z + 128 * ra + 256 * rd + 512 * tc + 1024 * aa
              + 2048 * op + 32768 * qr) % 256,
           256 * (qd / 256 % 256) + qd % 256,
           256 * (an / 256 % 256) + an % 256,
           256 * (ns / 256 % 256) + ns % 256,
           256 * (ar / 256 % 256) + ar % 256⟩ := rfl
    rw [hred]
    simp only [DnsHeader.mk.injEq]
    refine ⟨by omega, by omega, by omega, by omega, by omega, by omega⟩
  · simp only [unpack_flags, DnsHeaderFlags.mk.injEq]
    refine ⟨by omega, by omega, by omega, by omega, by omega, by omega, by omega, by omega⟩

/-- Witness for C6 at a concrete header with mixed flag bits
(`id = 0x1234`, `qr = 1`, `opcode = 5`, `aa = 1`, `rd = 1`, `z = 3`,
`rcode = 9`, counts 17, 2, 3, 65535). -/
theorem header_roundtrip_witness :
    extract_header (flip_dns_header
        ⟨4660, pack_flags ⟨1, 5, 1, 0, 1, 0, 3, 9⟩, 17, 2, 3, 65535⟩)
        = ⟨4660, pack_flags ⟨1, 5, 1, 0, 1, 0, 3, 9⟩, 17, 2, 3, 65535⟩ ∧
    unpack_flags (pack_flags ⟨1, 5, 1, 0, 1, 0, 3, 9⟩) = ⟨1, 5, 1, 0, 1, 0, 3, 9⟩ :=
  header_roundtrip ⟨1, 5, 1, 0, 1, 0, 3, 9⟩ 4660 17 2 3 65535
    (by decide) (by decide) (by decide) (by decide) (by decide) (by decide)
    (by decide) (by decide) (by decide) (by decide) (by decide) (by decide) (by decide)

/-- C7.  Query assembly: for every valid name the assembled message is the
12 header bytes — id 1, flags with only `rd` set, `qd_count = 1`, all
other counts and flag bits 0 — followed by exactly one encoded question
(the label sequence, its zero terminator, then `qtype = 1` and
`qclass = 1` big-endian) and nothing else, for a total of
`12 + (|qname| + 1) + 4` bytes. -/
theorem build_query_layout (labels : List (List Nat)) (h : validName labels) :
    hydrate_message (encodeTokens labels)
        = flip_dns_header hydrate_dns_header ++ (encodeTokens labels ++ [0]) ++ be16 1 ++ be16 1 ∧
    (hydrate_message (encodeTokens labels)).length
        = 12 + ((encodeTokens labels).length + 1) + 2 * 2 ∧
    extract_header (hydrate_message (encodeTokens labels)) = hydrate_dns_header ∧
    unpack_flags hydrate_dns_header.flags = ⟨0, 0, 0, 0, 1, 0, 0, 0⟩ ∧
    hydrate_dns_header.message_id = 1 ∧ hydrate_dns_header.qd_count = 1 ∧
    hydrate_dns_header.an_count = 0 ∧ hydrate_dns_header.ns_count = 0 ∧
    hydrate_dns_header.as_count = 0 := by
  obtain ⟨hne, hval, _⟩ := h
  have htw : (encodeTokens labels).takeWhile (fun b => b ≠ 0) = encodeTokens labels :=
    List.takeWhile_eq_self_iff.mpr (by simpa using encodeTokens_ne_zero hval)
  refine ⟨?_, ?_, rfl, by decide, rfl, rfl, rfl, rfl, rfl⟩
  · unfold hydrate_message
    rw [htw]
  · unfold hydrate_message
    rw [htw]
    simp [flip_dns_header, be16, List.length_append]
    omega

/-- Witness for C7 at the name `"example.com"`: the message is exactly
`12 + 13 + 4 = 29` bytes. -/
theorem build_query_layout_witness :
    validName [[101, 120, 97, 109, 112, 108, 101], [99, 111, 109]] ∧
    (hydrate_message (encodeTokens [[101, 120, 97, 109, 112, 108, 101], [99, 111, 109]])).length
      = 29 :=
  ⟨by decide, by
    have h := build_query_layout [[101, 120, 97, 109, 112, 108, 101], [99, 111, 109]] (by decide)
    simpa using h.2.1⟩

end DnsClient
